import Mathlib

/-!
Verification of the wxt entrypoint discovery and classification subsystem.

The discovery pipeline (findEntrypoints) is embedded shallowly: paths are
lists of characters, the file system and the module importer are oracles
passed as functions, and the pipeline is a pure function from a build
context, the oracles and the globbed file list to either an error or the
resolved entrypoint list.
-/

namespace Wxt

/-- The closed set of entrypoint kinds recognized by the classifier. -/
inductive EntrypointType where
  | background
  | contentScript
  | contentScriptStyle
  | popup
  | options
  | devtools
  | sidepanel
  | bookmarks
  | history
  | newtab
  | sandbox
  | unlistedPage
  | unlistedScript
  | unlistedStyle
deriving DecidableEq, Repr

/-- Splits a character list on a separator character. Always returns a
nonempty list of fragments; the separator itself is dropped. -/
def splitOnC (c : Char) : List Char → List (List Char)
  | [] => [[]]
  | x :: xs =>
    match splitOnC c xs with
    | [] => [[]]
    | r :: rs => if x = c then [] :: r :: rs else (x :: r) :: rs

theorem splitOnC_ne_nil (c : Char) (l : List Char) : splitOnC c l ≠ [] := by
  cases l with
  | nil => simp [splitOnC]
  | cons x xs =>
    simp only [splitOnC]
    cases h : splitOnC c xs with
    | nil => simp
    | cons r rs =>
      by_cases hx : x = c <;> simp [hx]

theorem splitOnC_of_not_mem {c : Char} {l : List Char} (h : c ∉ l) :
    splitOnC c l = [l] := by
  induction l with
  | nil => rfl
  | cons x xs ih =>
    simp only [List.mem_cons, not_or] at h
    simp [splitOnC, ih h.2, Ne.symm h.1]

theorem splitOnC_append (c : Char) (xs ys : List Char) :
    splitOnC c (xs ++ c :: ys) = splitOnC c xs ++ splitOnC c ys := by
  induction xs with
  | nil =>
    simp only [List.nil_append, splitOnC]
    cases h : splitOnC c ys with
    | nil => exact absurd h (splitOnC_ne_nil c ys)
    | cons r rs => simp
  | cons x xs ih =>
    simp only [List.cons_append, splitOnC, List.append_eq]
    rw [ih]
    cases h : splitOnC c xs with
    | nil => exact absurd h (splitOnC_ne_nil c xs)
    | cons r rs =>
      by_cases hx : x = c <;> simp [hx]

/-- Joins dot-separated name fragments back into a single name. -/
def joinDots (parts : List (List Char)) : List Char :=
  List.intercalate ['.'] parts

def backgroundChars : List Char := "background".toList
def popupChars : List Char := "popup".toList
def optionsChars : List Char := "options".toList
def devtoolsChars : List Char := "devtools".toList
def bookmarksChars : List Char := "bookmarks".toList
def historyChars : List Char := "history".toList
def newtabChars : List Char := "newtab".toList
def sandboxChars : List Char := "sandbox".toList
def sidepanelChars : List Char := "sidepanel".toList
def contentChars : List Char := "content".toList
def indexChars : List Char := "index".toList

def htmlExt : List Char := "html".toList
def scriptExts : List (List Char) :=
  ["ts".toList, "tsx".toList, "js".toList, "jsx".toList]
def styleExts : List (List Char) := ["css".toList, "scss".toList]

/-- Modelled from the spec: the logical name of an entrypoint whose basename
carries a type-discriminating suffix (for example overlay.content) is the
basename with the suffix removed; a bare suffix (content) is its own name. -/
def suffixName (parts : List (List Char)) : List Char :=
  match parts with
  | [] => []
  | [p] => p
  | _ => joinDots parts.dropLast

/-- Modelled from the spec: classification of a dot-split basename together
with its extension, following the ordered naming-rule table of the path
classifier (exact basenames first, then suffix patterns, then
extension-based fallbacks). The repository ships only the tests of
findEntrypoints, not its implementation. -/
def classifyStem (parts : List (List Char)) (ext : List Char) :
    Option (EntrypointType × List Char) :=
  if ext = htmlExt then
    if parts = [popupChars] then some (.popup, popupChars)
    else if parts = [optionsChars] then some (.options, optionsChars)
    else if parts = [devtoolsChars] then some (.devtools, devtoolsChars)
    else if parts = [bookmarksChars] then some (.bookmarks, bookmarksChars)
    else if parts = [historyChars] then some (.history, historyChars)
    else if parts = [newtabChars] then some (.newtab, newtabChars)
    else
      match parts.getLast? with
      | some l =>
        if l = sandboxChars then some (.sandbox, suffixName parts)
        else if l = sidepanelChars then some (.sidepanel, suffixName parts)
        else some (.unlistedPage, joinDots parts)
      | none => none
  else if ext ∈ scriptExts then
    if parts = [backgroundChars] then some (.background, backgroundChars)
    else
      match parts.getLast? with
      | some l =>
        if l = contentChars then some (.contentScript, suffixName parts)
        else some (.unlistedScript, joinDots parts)
      | none => none
  else if ext ∈ styleExts then
    match parts.getLast? with
    | some l =>
      if l = contentChars then some (.contentScriptStyle, suffixName parts)
      else some (.unlistedStyle, joinDots parts)
    | none => none
  else none

/-- Modelled from the spec: the path classifier. Splits the relative path
into segments, takes the final segment as the filename, splits it on dots
into a base and an extension, treats a directory-with-index form
(x/index.ext) as equivalent to x.ext, and dispatches on the stem and the
extension. Returns the entrypoint type and the logical name, or none when
no naming rule matches. -/
def stemOf (b : List Char) (bs : List (List Char)) (parents : List (List Char)) :
    List (List Char) :=
  if bs = [] ∧ b = indexChars then
    match parents with
    | [] => [indexChars]
    | parent :: _ => splitOnC '.' parent
  else (b :: bs).reverse

def classifyDotRev :
    List (List Char) → List (List Char) → Option (EntrypointType × List Char)
  | ext :: b :: bs, parents => classifyStem (stemOf b bs parents) ext
  | _, _ => none

def classifySegsRev :
    List (List Char) → Option (EntrypointType × List Char)
  | [] => none
  | fname :: parents => classifyDotRev (splitOnC '.' fname).reverse parents

def classify (p : List Char) : Option (EntrypointType × List Char) :=
  classifySegsRev (splitOnC '/' p).reverse

example : classify "popup.html".toList = some (.popup, popupChars) := by decide
example : classify "popup/index.html".toList = some (.popup, popupChars) := by
  decide
example : classify "overlay.content.ts".toList
    = some (.contentScript, "overlay".toList) := by decide
example : classify "named.sidepanel/index.html".toList
    = some (.sidepanel, "named".toList) := by decide
example : classify "content.ts".toList
    = some (.contentScript, "content".toList) := by decide
example : classify "onboarding.html".toList
    = some (.unlistedPage, "onboarding".toList) := by decide
example : classify "iframe.scss".toList
    = some (.unlistedStyle, "iframe".toList) := by decide
example : classify "overlay.content/index.css".toList
    = some (.contentScriptStyle, "overlay".toList) := by decide
example : classify "injected/index.jsx".toList
    = some (.unlistedScript, "injected".toList) := by decide
example : classify "stray.txt".toList = none := by decide

theorem reverse_splitOnC_cons (c : Char) (l : List Char) :
    ∃ b bs, (splitOnC c l).reverse = b :: bs := by
  cases h : (splitOnC c l).reverse with
  | nil =>
    have hne := splitOnC_ne_nil c l
    rw [← List.reverse_reverse (splitOnC c l), h] at hne
    simp at hne
  | cons b bs => exact ⟨b, bs, rfl⟩

theorem classify_direct (stem ext : List Char) (hs : '/' ∉ stem)
    (he1 : '/' ∉ ext) (he2 : '.' ∉ ext) :
    classify (stem ++ '.' :: ext) = classifyStem (splitOnC '.' stem) ext := by
  have hslash : '/' ∉ stem ++ '.' :: ext := by
    simp [List.mem_append, List.mem_cons, hs, he1]
  have h1 : splitOnC '/' (stem ++ '.' :: ext) = [stem ++ '.' :: ext] :=
    splitOnC_of_not_mem hslash
  have h2 : splitOnC '.' (stem ++ '.' :: ext) = splitOnC '.' stem ++ [ext] := by
    rw [splitOnC_append, splitOnC_of_not_mem he2]
  obtain ⟨b, bs, h3⟩ := reverse_splitOnC_cons '.' stem
  have hstem : stemOf b bs [] = splitOnC '.' stem := by
    by_cases hc : bs = [] ∧ b = indexChars
    · have : splitOnC '.' stem = [indexChars] := by
        rw [← List.reverse_reverse (splitOnC '.' stem), h3, hc.1, hc.2]
        rfl
      simp [stemOf, hc, this]
    · rw [stemOf, if_neg hc, ← h3, List.reverse_reverse]
  rw [classify, h1]
  show classifyDotRev (splitOnC '.' (stem ++ '.' :: ext)).reverse [] = _
  rw [h2, List.reverse_append, h3]
  show classifyStem (stemOf b bs []) ext = _
  rw [hstem]

theorem classify_indexed (stem ext : List Char) (hs : '/' ∉ stem)
    (he1 : '/' ∉ ext) (he2 : '.' ∉ ext) :
    classify (stem ++ "/index.".toList ++ ext)
      = classifyStem (splitOnC '.' stem) ext := by
  have hrw : stem ++ "/index.".toList ++ ext
      = stem ++ '/' :: ("index".toList ++ '.' :: ext) := by
    rw [List.append_assoc]
    rfl
  rw [hrw]
  have h0 : '/' ∉ "index".toList ++ '.' :: ext := by
    simp [List.mem_append, List.mem_cons, he1]
  have h1 : splitOnC '/' (stem ++ '/' :: ("index".toList ++ '.' :: ext))
      = [stem, "index".toList ++ '.' :: ext] := by
    rw [splitOnC_append, splitOnC_of_not_mem hs, splitOnC_of_not_mem h0]
    rfl
  have h2 : splitOnC '.' ("index".toList ++ '.' :: ext)
      = [indexChars, ext] := by
    rw [splitOnC_append, splitOnC_of_not_mem (l := ext) he2,
      splitOnC_of_not_mem (l := "index".toList) (by decide)]
    rfl
  rw [classify, h1]
  show classifyDotRev (splitOnC '.' ("index".toList ++ '.' :: ext)).reverse
      [stem] = _
  rw [h2]
  show classifyStem (stemOf indexChars [] [stem]) ext = _
  rw [stemOf, if_pos ⟨rfl, rfl⟩]

/-- C2: for every base name, the directory-with-index shape (x/index.ext)
and the flat shape (x.ext) classify to the same type and name pair; this
covers popup.html against popup/index.html, named.sidepanel.html against
named.sidepanel/index.html, overlay.content.ts against
overlay.content/index.ts, and every other recognized shape. -/
theorem shape_invariance (stem ext : List Char) (hs : '/' ∉ stem)
    (he1 : '/' ∉ ext) (he2 : '.' ∉ ext) :
    classify (stem ++ "/index.".toList ++ ext)
      = classify (stem ++ '.' :: ext) := by
  rw [classify_indexed stem ext hs he1 he2, classify_direct stem ext hs he1 he2]

/-- Witness for C2 at the named.sidepanel example from the test suite. -/
theorem shape_invariance_witness :
    ('/' ∉ "named.sidepanel".toList ∧ '/' ∉ "html".toList
      ∧ '.' ∉ "html".toList)
    ∧ classify ("named.sidepanel".toList ++ "/index.".toList ++ "html".toList)
      = classify ("named.sidepanel".toList ++ '.' :: "html".toList) :=
  ⟨⟨by decide, by decide, by decide⟩,
    shape_invariance ("named.sidepanel".toList) ("html".toList)
      (by decide) (by decide) (by decide)⟩

/-- Literal option values: strings, booleans, arrays and objects. Values
that look like object or array literals in HTML metadata are evaluated
into this structured form rather than being executed as code. -/
inductive MetaValue where
  | str : List Char → MetaValue
  | bool : Bool → MetaValue
  | arr : List MetaValue → MetaValue
  | obj : List (List Char × MetaValue) → MetaValue

def skipWs : List Char → List Char
  | [] => []
  | c :: rest =>
    if c = ' ' ∨ c = '\n' ∨ c = '\t' ∨ c = '\r' then skipWs rest
    else c :: rest

/-- Reads characters of a quoted string up to the closing quote. -/
def parseStrLit (q : Char) : List Char → Option (List Char × List Char)
  | [] => none
  | c :: rest =>
    if c = q then some ([], rest)
    else
      match parseStrLit q rest with
      | some (s, r) => some (c :: s, r)
      | none => none

/-- The single-quote character. -/
def squote : Char := Char.ofNat 39

/-- The double-quote character. -/
def dquote : Char := Char.ofNat 34

/-- Reads a quoted object key. -/
def parseKey : List Char → Option (List Char × List Char)
  | [] => none
  | c :: rest =>
    if c = squote ∨ c = dquote then parseStrLit c rest else none

inductive PTask where
  | val
  | items
  | fields

inductive POut where
  | v : MetaValue → POut
  | vs : List MetaValue → POut
  | fs : List (List Char × MetaValue) → POut

/-- Modelled from the spec: a small safe literal reader for the
JSON-compatible subset used by HTML metadata values (single or double
quoted strings, booleans, arrays, objects). Fuel-indexed recursive
descent; the repository ships only the tests of the metadata extractor,
not its implementation. -/
def parseF : Nat → PTask → List Char → Option (POut × List Char)
  | 0, _, _ => none
  | n + 1, .val, input =>
    match skipWs input with
    | '[' :: rest =>
      match skipWs rest with
      | ']' :: r2 => some (.v (.arr []), r2)
      | other =>
        match parseF n .items other with
        | some (.vs vs, r) => some (.v (.arr vs), r)
        | _ => none
    | '{' :: rest =>
      match skipWs rest with
      | '}' :: r2 => some (.v (.obj []), r2)
      | other =>
        match parseF n .fields other with
        | some (.fs fs, r) => some (.v (.obj fs), r)
        | _ => none
    | 't' :: 'r' :: 'u' :: 'e' :: rest => some (.v (.bool true), rest)
    | 'f' :: 'a' :: 'l' :: 's' :: 'e' :: rest => some (.v (.bool false), rest)
    | c :: rest =>
      if c = squote ∨ c = dquote then
        match parseStrLit c rest with
        | some (s, r) => some (.v (.str s), r)
        | none => none
      else none
    | [] => none
  | n + 1, .items, input =>
    match parseF n .val input with
    | some (.v v, rest) =>
      match skipWs rest with
      | ',' :: r2 =>
        match parseF n .items r2 with
        | some (.vs vs, r3) => some (.vs (v :: vs), r3)
        | _ => none
      | ']' :: r2 => some (.vs [v], r2)
      | _ => none
    | _ => none
  | n + 1, .fields, input =>
    match parseKey (skipWs input) with
    | some (k, rest) =>
      match skipWs rest with
      | ':' :: r2 =>
        match parseF n .val r2 with
        | some (.v v, r3) =>
          match skipWs r3 with
          | ',' :: r4 =>
            match parseF n .fields r4 with
            | some (.fs fs, r5) => some (.fs ((k, v) :: fs), r5)
            | _ => none
          | '}' :: r4 => some (.fs [(k, v)], r4)
          | _ => none
        | _ => none
      | _ => none
    | none => none

/-- Evaluates a whole content string as one literal, or fails. -/
def parseLiteral (content : List Char) : Option MetaValue :=
  match parseF (2 * content.length + 2) .val content with
  | some (.v v, rest) => if skipWs rest = [] then some v else none
  | _ => none

def trueChars : List Char := "true".toList
def falseChars : List Char := "false".toList

/-- Modelled from the spec: interpretation of one metadata content value.
Object-shaped and array-shaped values are evaluated as literals; the words
true and false become booleans; anything else stays a plain string. -/
def parseContent (content : List Char) : MetaValue :=
  match skipWs content with
  | '{' :: _ =>
    match parseLiteral content with
    | some v => v
    | none => .str content
  | '[' :: _ =>
    match parseLiteral content with
    | some v => v
    | none => .str content
  | _ =>
    if skipWs content = trueChars then .bool true
    else if skipWs content = falseChars then .bool false
    else .str content

/-- Converts a snake_case manifest field to the camelCased option key. -/
def camel : List Char → List Char
  | [] => []
  | '_' :: rest =>
    match rest with
    | [] => []
    | c :: rest2 => c.toUpper :: camel rest2
  | c :: rest => c :: camel rest

def manifestHead : List Char := "manifest.".toList

/-- Extracts the option key from a metadata tag name of the form
manifest.(field), camel-casing the field; other names yield none. -/
def manifestField (n : List Char) : Option (List Char) :=
  if n.take 9 = manifestHead then some (camel (n.drop 9)) else none

/-- The head metadata of one HTML document, as returned by the external
HTML metadata reader: the name and content attribute of every meta tag,
and the document title when present. -/
structure HtmlDoc where
  metas : List (List Char × List Char)
  title : Option (List Char)

def defaultTitleKey : List Char := "defaultTitle".toList
def typeKey : List Char := "type".toList
def includeKey : List Char := "include".toList
def excludeKey : List Char := "exclude".toList
def moduleChars : List Char := "module".toList

/-- Modelled from the spec: option extraction for HTML-based entrypoints.
Every head meta tag named manifest.(field) becomes the camel-cased option
key with its content value interpreted by parseContent, and the document
title becomes the defaultTitle option. -/
def htmlOptions (doc : HtmlDoc) : List (List Char × MetaValue) :=
  (doc.metas.filterMap fun kv =>
    (manifestField kv.1).map fun k => (k, parseContent kv.2))
  ++ (match doc.title with
      | some t => [(defaultTitleKey, MetaValue.str t)]
      | none => [])

def iconObjChars : List Char := "\x7b '16': '/icon/16.png' \x7d".toList

example : parseContent iconObjChars
    = .obj [("16".toList, .str "/icon/16.png".toList)] := by rfl
example : parseContent "['firefox']".toList
    = .arr [.str "firefox".toList] := by rfl
example : parseContent "true".toList = .bool true := by rfl
example : camel "default_icon".toList = "defaultIcon".toList := by decide
example : camel "open_in_tab".toList = "openInTab".toList := by decide
example : camel "open_at_install".toList = "openAtInstall".toList := by decide
example : camel "include".toList = "include".toList := by decide

/-- The command the discovery run serves. -/
inductive Command where
  | build
  | serve
deriving DecidableEq, Repr

/-- The read-only build context consumed by one discovery invocation. -/
structure BuildContext where
  entrypointsDir : List Char
  outDir : List Char
  manifestVersion : Nat
  browser : List Char
  command : Command
  filterEntrypoints : Option (List (List Char))

/-- One resolved entrypoint of the final list. -/
structure ResolvedEntrypoint where
  type : EntrypointType
  name : List Char
  inputPath : List Char
  outputDir : List Char
  options : List (List Char × MetaValue)
  skipped : Bool

/-- The pluggable module-import capability: maps an input path to the
options object exported by the script there. -/
abbrev ImportOracle := List Char → List (List Char × MetaValue)

/-- The external HTML metadata reader: maps an input path to the parsed
head metadata of the document there. -/
abbrev DocOracle := List Char → HtmlDoc

inductive DiscoveryError where
  | duplicateNames : List (List Char × List (List Char)) → DiscoveryError
  | noEntrypoints : List Char → DiscoveryError

def contentScriptsSeg : List Char := "/content-scripts".toList

/-- Modelled from the spec: the output directory of an entrypoint is the
build root, except for content scripts and content-script styles, which
output to a content-scripts subdirectory. -/
def outputDirFor (outDir : List Char) (t : EntrypointType) : List Char :=
  if t = .contentScript ∨ t = .contentScriptStyle then
    outDir ++ contentScriptsSeg
  else outDir

def lookupOpt (opts : List (List Char × MetaValue)) (key : List Char) :
    Option MetaValue :=
  match opts with
  | [] => none
  | (k, v) :: rest => if k = key then some v else lookupOpt rest key

/-- Reads a browser list out of an option value: the string elements of an
array literal. Non-array values carry no browser list. -/
def asStrs : MetaValue → Option (List (List Char))
  | .arr vs =>
    some (vs.filterMap fun v =>
      match v with
      | .str s => some s
      | _ => none)
  | _ => none

/-- Modelled from the spec: a candidate survives browser filtering unless
its include list is present without the target browser, or its exclude
list is present with the target browser. -/
def passesBrowser (browser : List Char)
    (opts : List (List Char × MetaValue)) : Bool :=
  (match (lookupOpt opts includeKey).bind asStrs with
   | some ss => decide (browser ∈ ss)
   | none => true)
  && (match (lookupOpt opts excludeKey).bind asStrs with
      | some ss => decide (browser ∉ ss)
      | none => true)

def isHtmlType : EntrypointType → Bool
  | .popup | .options | .devtools | .sidepanel | .bookmarks | .history
  | .newtab | .sandbox | .unlistedPage => true
  | _ => false

def isScriptType : EntrypointType → Bool
  | .background | .contentScript | .unlistedScript => true
  | _ => false

/-- Modelled from the spec: per-type option extraction. HTML-based kinds
read head metadata, script-based kinds import the exported options object,
style kinds carry no options. A background options object under manifest
version 2 silently drops its type entry, because only manifest version 3
background scripts can be modules. -/
def extractOptionsFor (ctx : BuildContext) (o : ImportOracle) (d : DocOracle)
    (t : EntrypointType) (input : List Char) :
    List (List Char × MetaValue) :=
  if isHtmlType t then htmlOptions (d input)
  else if isScriptType t then
    let raw := o input
    if t = .background ∧ ctx.manifestVersion ≠ 3 then
      raw.filter fun kv => decide (kv.1 ≠ typeKey)
    else raw
  else []

/-- Classifies one globbed relative path and builds the enriched
candidate for it, or none when no naming rule matches. -/
def resolveOne (ctx : BuildContext) (o : ImportOracle) (d : DocOracle)
    (p : List Char) : Option ResolvedEntrypoint :=
  match classify p with
  | none => none
  | some (t, n) =>
    let input := ctx.entrypointsDir ++ '/' :: p
    some { type := t, name := n, inputPath := input,
           outputDir := outputDirFor ctx.outDir t,
           options := extractOptionsFor ctx o d t input,
           skipped := false }

/-- All candidates discovered from the globbed file list; paths matching
no naming rule are skipped silently. -/
def discovered (ctx : BuildContext) (o : ImportOracle) (d : DocOracle)
    (files : List (List Char)) : List ResolvedEntrypoint :=
  files.filterMap (resolveOne ctx o d)

/-- Candidates surviving per-browser include and exclude filtering. -/
def afterBrowser (ctx : BuildContext) (o : ImportOracle) (d : DocOracle)
    (files : List (List Char)) : List ResolvedEntrypoint :=
  (discovered ctx o d files).filter fun e =>
    passesBrowser ctx.browser e.options

def virtualBackgroundPath : List Char := "virtual:user-background".toList

/-- The synthetic background entrypoint injected in serve mode; its input
path is a sentinel marker, not a real file path. -/
def virtualBg (ctx : BuildContext) : ResolvedEntrypoint :=
  { type := .background, name := backgroundChars,
    inputPath := virtualBackgroundPath, outputDir := ctx.outDir,
    options := [], skipped := false }

/-- Modelled from the spec: when the command is serve and no user-defined
background entrypoint was discovered, one virtual background candidate is
appended so the dev-reload transport has a background context. -/
def withVirtualBg (ctx : BuildContext) (o : ImportOracle) (d : DocOracle)
    (files : List (List Char)) : List ResolvedEntrypoint :=
  if ctx.command = .serve
      ∧ ∀ e ∈ discovered ctx o d files, e.type ≠ .background then
    afterBrowser ctx o d files ++ [virtualBg ctx]
  else afterBrowser ctx o d files

/-- Modelled from the spec: the optional allow-set of names. When present,
only candidates whose name is a member survive, ordered by the allow-set
rather than by discovery order. -/
def survivingAll (ctx : BuildContext) (o : ImportOracle) (d : DocOracle)
    (files : List (List Char)) : List ResolvedEntrypoint :=
  match ctx.filterEntrypoints with
  | none => withVirtualBg ctx o d files
  | some allow =>
    allow.flatMap fun n =>
      (withVirtualBg ctx o d files).filter fun e => decide (e.name = n)

/-- First-occurrence deduplication of a name list. -/
def firstDedupAux (seen : List (List Char)) :
    List (List Char) → List (List Char)
  | [] => []
  | n :: rest =>
    if n ∈ seen then firstDedupAux seen rest
    else n :: firstDedupAux (n :: seen) rest

def firstDedup (l : List (List Char)) : List (List Char) :=
  firstDedupAux [] l

/-- Modelled from the spec: the duplicate-name report. Groups the
surviving candidates by name in first-occurrence order and keeps every
group with more than one member together with all of its input paths. -/
def dupGroups (l : List ResolvedEntrypoint) :
    List (List Char × List (List Char)) :=
  (firstDedup (l.map fun e => e.name)).filterMap fun n =>
    let g := l.filter fun e => decide (e.name = n)
    if 2 ≤ g.length then some (n, g.map fun e => e.inputPath) else none

/-- Modelled from the spec: the discovery orchestrator. Classifies the
globbed paths, extracts options, applies browser filtering, injects the
serve-mode virtual background, applies the allow-set, then fails on
duplicate names or on an empty resolved set. The repository ships only
the tests of findEntrypoints, not its implementation. -/
def findEntrypoints (ctx : BuildContext) (o : ImportOracle) (d : DocOracle)
    (files : List (List Char)) :
    Except DiscoveryError (List ResolvedEntrypoint) :=
  match dupGroups (survivingAll ctx o d files) with
  | [] =>
    if (survivingAll ctx o d files).isEmpty then
      .error (.noEntrypoints ctx.entrypointsDir)
    else .ok (survivingAll ctx o d files)
  | g :: gs => .error (.duplicateNames (g :: gs))

def emptyDoc : HtmlDoc := ⟨[], none⟩
def noDocs : DocOracle := fun _ => emptyDoc
def noImport : ImportOracle := fun _ => []

def ctxBuild : BuildContext :=
  { entrypointsDir := "/src/entrypoints".toList, outDir := "/out".toList,
    manifestVersion := 3, browser := "chrome".toList, command := .build,
    filterEntrypoints := none }

def ctxServe : BuildContext := { ctxBuild with command := .serve }

def popupDoc : DocOracle := fun _ =>
  ⟨[("manifest.default_icon".toList, iconObjChars)],
    some "Default Title".toList⟩

example :
    findEntrypoints ctxBuild noImport popupDoc ["popup.html".toList]
      = .ok [{ type := .popup, name := popupChars,
               inputPath := "/src/entrypoints/popup.html".toList,
               outputDir := "/out".toList,
               options :=
                 [("defaultIcon".toList,
                    .obj [("16".toList, .str "/icon/16.png".toList)]),
                  (defaultTitleKey, .str "Default Title".toList)],
               skipped := false }] := by rfl

example :
    findEntrypoints ctxBuild noImport noDocs ["overlay.content.ts".toList]
      = .ok [{ type := .contentScript, name := "overlay".toList,
               inputPath := "/src/entrypoints/overlay.content.ts".toList,
               outputDir := "/out/content-scripts".toList,
               options := [], skipped := false }] := by rfl

example :
    findEntrypoints ctxServe noImport noDocs ["popup.html".toList]
      = .ok [{ type := .popup, name := popupChars,
               inputPath := "/src/entrypoints/popup.html".toList,
               outputDir := "/out".toList, options := [], skipped := false },
             virtualBg ctxServe] := by rfl

example :
    findEntrypoints ctxBuild noImport noDocs [] =
      .error (.noEntrypoints "/src/entrypoints".toList) := by rfl

example :
    findEntrypoints ctxBuild noImport noDocs
        ["popup.html".toList, "popup/index.html".toList]
      = .error (.duplicateNames
          [(popupChars,
            ["/src/entrypoints/popup.html".toList,
             "/src/entrypoints/popup/index.html".toList])]) := by rfl

def bgModule : ImportOracle := fun _ => [(typeKey, .str moduleChars)]
def ctxMv2 : BuildContext := { ctxBuild with manifestVersion := 2 }
def inclFirefox : ImportOracle := fun _ =>
  [(includeKey, .arr [.str "firefox".toList])]
def exclChrome : ImportOracle := fun _ =>
  [(excludeKey, .arr [.str "chrome".toList])]
def ctxFilter : BuildContext :=
  { ctxBuild with filterEntrypoints := some ["popup".toList, "ui".toList] }

example :
    findEntrypoints ctxMv2 bgModule noDocs ["background.ts".toList]
      = .ok [{ type := .background, name := backgroundChars,
               inputPath := "/src/entrypoints/background.ts".toList,
               outputDir := "/out".toList, options := [],
               skipped := false }] := by rfl

example :
    findEntrypoints ctxBuild bgModule noDocs ["background.ts".toList]
      = .ok [{ type := .background, name := backgroundChars,
               inputPath := "/src/entrypoints/background.ts".toList,
               outputDir := "/out".toList,
               options := [(typeKey, .str moduleChars)],
               skipped := false }] := by rfl

example :
    findEntrypoints ctxBuild inclFirefox noDocs ["background.ts".toList]
      = .error (.noEntrypoints "/src/entrypoints".toList) := by rfl

example :
    findEntrypoints ctxBuild exclChrome noDocs ["example.content.ts".toList]
      = .error (.noEntrypoints "/src/entrypoints".toList) := by rfl

example :
    (findEntrypoints ctxFilter noImport noDocs
        ["options/index.html".toList, "popup/index.html".toList,
         "ui.content/index.ts".toList,
         "injected.content/index.ts".toList]).map
      (fun l => l.map fun e => e.name)
      = .ok ["popup".toList, "ui".toList] := by rfl

theorem mem_firstDedupAux (a : List Char) (l : List (List Char)) :
    ∀ seen, a ∈ firstDedupAux seen l ↔ a ∈ l ∧ a ∉ seen := by
  induction l with
  | nil => intro seen; simp [firstDedupAux]
  | cons n rest ih =>
    intro seen
    by_cases hn : n ∈ seen
    · rw [firstDedupAux, if_pos hn, ih seen]
      constructor
      · exact fun h => ⟨List.mem_cons_of_mem n h.1, h.2⟩
      · rintro ⟨h1, h2⟩
        rcases List.mem_cons.mp h1 with h1 | h1
        · exact absurd (h1 ▸ hn) h2
        · exact ⟨h1, h2⟩
    · rw [firstDedupAux, if_neg hn, List.mem_cons, ih (n :: seen)]
      constructor
      · rintro (h | ⟨h1, h2⟩)
        · subst h; exact ⟨List.mem_cons_self a rest, hn⟩
        · exact ⟨List.mem_cons_of_mem n h1,
            fun hc => h2 (List.mem_cons_of_mem n hc)⟩
      · rintro ⟨h1, h2⟩
        by_cases ha : a = n
        · exact .inl ha
        · rcases List.mem_cons.mp h1 with h | h
          · exact absurd h ha
          · refine .inr ⟨h, fun hc => ?_⟩
            rcases List.mem_cons.mp hc with hy | hy
            · exact ha hy
            · exact h2 hy

theorem mem_firstDedup (a : List Char) (l : List (List Char)) :
    a ∈ firstDedup l ↔ a ∈ l := by
  rw [firstDedup, mem_firstDedupAux]
  simp

theorem mem_dupGroups (l : List ResolvedEntrypoint)
    (g : List Char × List (List Char)) :
    g ∈ dupGroups l
      ↔ g.1 ∈ firstDedup (l.map fun e => e.name)
        ∧ 2 ≤ (l.filter fun e => decide (e.name = g.1)).length
        ∧ g.2 = (l.filter fun e => decide (e.name = g.1)).map
            fun e => e.inputPath := by
  unfold dupGroups
  rw [List.mem_filterMap]
  constructor
  · rintro ⟨n, hn, hf⟩
    simp only at hf
    by_cases hlen : 2 ≤ (l.filter fun e => decide (e.name = n)).length
    · rw [if_pos hlen] at hf
      obtain rfl := Option.some.inj hf
      exact ⟨hn, hlen, rfl⟩
    · rw [if_neg hlen] at hf
      exact absurd hf (by simp)
  · rintro ⟨h1, h2, h3⟩
    refine ⟨g.1, h1, ?_⟩
    simp only
    rw [if_pos h2, ← h3]

theorem dupGroups_names (l : List ResolvedEntrypoint) (n : List Char) :
    n ∈ (dupGroups l).map Prod.fst
      ↔ 2 ≤ (l.filter fun e => decide (e.name = n)).length := by
  rw [List.mem_map]
  constructor
  · rintro ⟨g, hg, rfl⟩
    exact ((mem_dupGroups l g).mp hg).2.1
  · intro h2
    refine ⟨(n, (l.filter fun e => decide (e.name = n)).map
      fun e => e.inputPath), ?_, rfl⟩
    rw [mem_dupGroups]
    refine ⟨?_, h2, rfl⟩
    rw [mem_firstDedup, List.mem_map]
    have hne : (l.filter fun e => decide (e.name = n)) ≠ [] := by
      intro hnil
      rw [hnil] at h2
      simp at h2
    obtain ⟨e, he⟩ := List.exists_mem_of_ne_nil _ hne
    have hmem := List.mem_filter.mp he
    exact ⟨e, hmem.1, by simpa using hmem.2⟩

theorem mem_discovered {ctx : BuildContext} {o : ImportOracle}
    {d : DocOracle} {files : List (List Char)} {e : ResolvedEntrypoint}
    (h : e ∈ discovered ctx o d files) :
    ∃ p t n, p ∈ files ∧ classify p = some (t, n)
      ∧ e = { type := t, name := n,
              inputPath := ctx.entrypointsDir ++ '/' :: p,
              outputDir := outputDirFor ctx.outDir t,
              options := extractOptionsFor ctx o d t
                  (ctx.entrypointsDir ++ '/' :: p),
              skipped := false } := by
  rcases List.mem_filterMap.mp h with ⟨p, hp, hres⟩
  unfold resolveOne at hres
  cases hc : classify p with
  | none => rw [hc] at hres; exact absurd hres (by simp)
  | some tn =>
    obtain ⟨t, n⟩ := tn
    rw [hc] at hres
    simp only at hres
    exact ⟨p, t, n, hp, hc, (Option.some.inj hres).symm⟩

theorem mem_withVirtualBg {ctx : BuildContext} {o : ImportOracle}
    {d : DocOracle} {files : List (List Char)} {e : ResolvedEntrypoint}
    (h : e ∈ withVirtualBg ctx o d files) :
    e ∈ afterBrowser ctx o d files ∨ e = virtualBg ctx := by
  unfold withVirtualBg at h
  split at h
  · rcases List.mem_append.mp h with h | h
    · exact .inl h
    · exact .inr (List.mem_singleton.mp h)
  · exact .inl h

theorem mem_survivingAll {ctx : BuildContext} {o : ImportOracle}
    {d : DocOracle} {files : List (List Char)} {e : ResolvedEntrypoint}
    (h : e ∈ survivingAll ctx o d files) :
    e ∈ withVirtualBg ctx o d files := by
  unfold survivingAll at h
  cases hf : ctx.filterEntrypoints with
  | none => rw [hf] at h; exact h
  | some allow =>
    rw [hf] at h
    rcases List.mem_flatMap.mp h with ⟨n, _, hn⟩
    exact (List.mem_filter.mp hn).1

theorem findEntrypoints_ok {ctx : BuildContext} {o : ImportOracle}
    {d : DocOracle} {files : List (List Char)}
    {res : List ResolvedEntrypoint}
    (h : findEntrypoints ctx o d files = .ok res) :
    res = survivingAll ctx o d files
      ∧ dupGroups (survivingAll ctx o d files) = []
      ∧ survivingAll ctx o d files ≠ [] := by
  unfold findEntrypoints at h
  cases hdg : dupGroups (survivingAll ctx o d files) with
  | nil =>
    rw [hdg] at h
    simp only at h
    by_cases hemp : (survivingAll ctx o d files).isEmpty
    · rw [if_pos hemp] at h; exact absurd h (by simp)
    · rw [if_neg hemp] at h
      refine ⟨(Except.ok.inj h).symm, rfl, ?_⟩
      intro hnil
      rw [hnil] at hemp
      exact hemp rfl
  | cons g gs => rw [hdg] at h; exact absurd h (by simp)

/-- C1: when two or more surviving candidates share a logical name,
discovery fails with one configuration error carrying the duplicate-name
report; that report lists exactly the names borne by more than one
surviving candidate, each with all of its conflicting input paths, and
never a single-member group. -/
theorem duplicate_names_error (ctx : BuildContext) (o : ImportOracle)
    (d : DocOracle) (files : List (List Char))
    (h : ∃ n, 2 ≤ ((survivingAll ctx o d files).filter
        fun e => decide (e.name = n)).length) :
    findEntrypoints ctx o d files
        = .error (.duplicateNames (dupGroups (survivingAll ctx o d files)))
      ∧ (∀ g ∈ dupGroups (survivingAll ctx o d files), 2 ≤ g.2.length)
      ∧ (∀ n, n ∈ (dupGroups (survivingAll ctx o d files)).map Prod.fst
          ↔ 2 ≤ ((survivingAll ctx o d files).filter
              fun e => decide (e.name = n)).length)
      ∧ (∀ g ∈ dupGroups (survivingAll ctx o d files),
          g.2 = ((survivingAll ctx o d files).filter
              fun e => decide (e.name = g.1)).map fun e => e.inputPath) := by
  obtain ⟨n, hn⟩ := h
  have hne : dupGroups (survivingAll ctx o d files) ≠ [] := by
    intro hnil
    have hmem := (dupGroups_names (survivingAll ctx o d files) n).mpr hn
    rw [hnil] at hmem
    simp at hmem
  refine ⟨?_, ?_, dupGroups_names (survivingAll ctx o d files), ?_⟩
  · unfold findEntrypoints
    cases hdg : dupGroups (survivingAll ctx o d files) with
    | nil => exact absurd hdg hne
    | cons g gs => rfl
  · intro g hg
    have hchar := (mem_dupGroups (survivingAll ctx o d files) g).mp hg
    rw [hchar.2.2]
    simpa using hchar.2.1
  · intro g hg
    exact ((mem_dupGroups (survivingAll ctx o d files) g).mp hg).2.2

def filesDup : List (List Char) :=
  ["popup.html".toList, "popup/index.html".toList]

/-- Witness for C1 at the popup.html and popup/index.html conflict from
the test suite. -/
theorem duplicate_names_error_witness :
    (∃ n, 2 ≤ ((survivingAll ctxBuild noImport noDocs filesDup).filter
        fun e => decide (e.name = n)).length)
    ∧ (findEntrypoints ctxBuild noImport noDocs filesDup
        = .error (.duplicateNames
            (dupGroups (survivingAll ctxBuild noImport noDocs filesDup)))
      ∧ (∀ g ∈ dupGroups (survivingAll ctxBuild noImport noDocs filesDup),
          2 ≤ g.2.length)
      ∧ (∀ n, n ∈ (dupGroups
            (survivingAll ctxBuild noImport noDocs filesDup)).map Prod.fst
          ↔ 2 ≤ ((survivingAll ctxBuild noImport noDocs filesDup).filter
              fun e => decide (e.name = n)).length)
      ∧ (∀ g ∈ dupGroups (survivingAll ctxBuild noImport noDocs filesDup),
          g.2 = ((survivingAll ctxBuild noImport noDocs filesDup).filter
              fun e => decide (e.name = g.1)).map fun e => e.inputPath)) :=
  ⟨⟨popupChars, by decide⟩,
    duplicate_names_error ctxBuild noImport noDocs filesDup
      ⟨popupChars, by decide⟩⟩

/-- C3: every entrypoint returned by a successful discovery call has, as
its output directory, the build root extended with the content-scripts
segment when its type is content-script or content-script-style, and the
build root itself for every other type. -/
theorem output_dir_correct (ctx : BuildContext) (o : ImportOracle)
    (d : DocOracle) (files : List (List Char))
    (res : List ResolvedEntrypoint)
    (h : findEntrypoints ctx o d files = .ok res) :
    ∀ e ∈ res,
      e.outputDir =
        if e.type = .contentScript ∨ e.type = .contentScriptStyle then
          ctx.outDir ++ "/content-scripts".toList
        else ctx.outDir := by
  intro e he
  obtain ⟨hres, -, -⟩ := findEntrypoints_ok h
  rw [hres] at he
  rcases mem_withVirtualBg (mem_survivingAll he) with h2 | h2
  · obtain ⟨p, t, n, hp, hc, hedef⟩ :=
      mem_discovered (List.mem_filter.mp h2).1
    rw [hedef]
    simp only [outputDirFor, contentScriptsSeg]
  · rw [h2]
    simp [virtualBg]

def filesC3 : List (List Char) :=
  ["overlay.content.ts".toList, "popup.html".toList]

def resC3 : List ResolvedEntrypoint :=
  [{ type := .contentScript, name := "overlay".toList,
     inputPath := "/src/entrypoints/overlay.content.ts".toList,
     outputDir := "/out/content-scripts".toList,
     options := [], skipped := false },
   { type := .popup, name := popupChars,
     inputPath := "/src/entrypoints/popup.html".toList,
     outputDir := "/out".toList,
     options := [], skipped := false }]

/-- Witness for C3 at a content script next to a popup page. -/
theorem output_dir_correct_witness :
    findEntrypoints ctxBuild noImport noDocs filesC3 = .ok resC3
    ∧ ∀ e ∈ resC3,
        e.outputDir =
          if e.type = .contentScript ∨ e.type = .contentScriptStyle then
            ctxBuild.outDir ++ "/content-scripts".toList
          else ctxBuild.outDir :=
  ⟨by rfl, output_dir_correct ctxBuild noImport noDocs filesC3 resC3 (by rfl)⟩

/-- C9: whenever the surviving set is empty after discovery and all
filtering, whether because nothing matched or because everything was
filtered out, discovery fails with the error naming the scanned root
directory. -/
theorem empty_result_error (ctx : BuildContext) (o : ImportOracle)
    (d : DocOracle) (files : List (List Char))
    (h : survivingAll ctx o d files = []) :
    findEntrypoints ctx o d files
      = .error (.noEntrypoints ctx.entrypointsDir) := by
  unfold findEntrypoints
  rw [h]
  rfl

/-- Witness for C9: the empty directory and the everything-filtered-out
directory surface the identical error. -/
theorem empty_result_error_witness :
    findEntrypoints ctxBuild noImport noDocs []
        = .error (.noEntrypoints ctxBuild.entrypointsDir)
    ∧ findEntrypoints ctxBuild inclFirefox noDocs ["background.ts".toList]
        = .error (.noEntrypoints ctxBuild.entrypointsDir) :=
  ⟨empty_result_error ctxBuild noImport noDocs [] (by rfl),
    empty_result_error ctxBuild inclFirefox noDocs
      ["background.ts".toList] (by rfl)⟩

/-- C10: every entrypoint returned by a successful discovery call has its
skipped flag false and passes the browser filter; a discovered candidate
that fails the browser filter is entirely absent from the returned
array. -/
theorem no_skipped_in_result (ctx : BuildContext) (o : ImportOracle)
    (d : DocOracle) (files : List (List Char))
    (res : List ResolvedEntrypoint)
    (h : findEntrypoints ctx o d files = .ok res) :
    (∀ e ∈ res, e.skipped = false
        ∧ passesBrowser ctx.browser e.options = true)
    ∧ ∀ e ∈ discovered ctx o d files,
        passesBrowser ctx.browser e.options = false → e ∉ res := by
  obtain ⟨hres, -, -⟩ := findEntrypoints_ok h
  have hmain : ∀ e ∈ res, e.skipped = false
      ∧ passesBrowser ctx.browser e.options = true := by
    intro e he
    rw [hres] at he
    rcases mem_withVirtualBg (mem_survivingAll he) with h2 | h2
    · have hfil := List.mem_filter.mp h2
      obtain ⟨p, t, n, hp, hc, hedef⟩ := mem_discovered hfil.1
      exact ⟨by rw [hedef], hfil.2⟩
    · rw [h2]
      exact ⟨rfl, rfl⟩
  refine ⟨hmain, ?_⟩
  intro e _ hfail hin
  have := (hmain e hin).2
  rw [hfail] at this
  exact Bool.false_ne_true this

def resC10 : List ResolvedEntrypoint :=
  [{ type := .popup, name := popupChars,
     inputPath := "/src/entrypoints/popup.html".toList,
     outputDir := "/out".toList, options := [], skipped := false },
   virtualBg ctxServe]

/-- Witness for C10 in serve mode with the virtual background present. -/
theorem no_skipped_in_result_witness :
    (∀ e ∈ resC10,
        e.skipped = false
          ∧ passesBrowser ctxServe.browser e.options = true)
    ∧ ∀ e ∈ discovered ctxServe noImport noDocs ["popup.html".toList],
        passesBrowser ctxServe.browser e.options = false → e ∉ resC10 :=
  no_skipped_in_result ctxServe noImport noDocs ["popup.html".toList]
    resC10 (by rfl)

/-- C4: a background entrypoint whose imported options declare type
module resolves to empty options under manifest version 2, with the type
option silently dropped, and keeps the module type under manifest
version 3. -/
theorem background_module_mv (v : Nat) (dir out browser : List Char) :
    (v = 2 → findEntrypoints ⟨dir, out, v, browser, .build, none⟩
        (fun _ => [(typeKey, .str moduleChars)]) noDocs
        ["background.ts".toList]
      = .ok [{ type := .background, name := backgroundChars,
               inputPath := dir ++ '/' :: "background.ts".toList,
               outputDir := out, options := [], skipped := false }])
    ∧ (v = 3 → findEntrypoints ⟨dir, out, v, browser, .build, none⟩
        (fun _ => [(typeKey, .str moduleChars)]) noDocs
        ["background.ts".toList]
      = .ok [{ type := .background, name := backgroundChars,
               inputPath := dir ++ '/' :: "background.ts".toList,
               outputDir := out,
               options := [(typeKey, .str moduleChars)],
               skipped := false }]) := by
  constructor <;> (intro hv; subst hv; rfl)

/-- Witness for C4 at manifest versions 2 and 3. -/
theorem background_module_mv_witness :
    findEntrypoints ⟨"/e".toList, "/out".toList, 2, "chrome".toList,
        .build, none⟩ (fun _ => [(typeKey, .str moduleChars)]) noDocs
        ["background.ts".toList]
      = .ok [{ type := .background, name := backgroundChars,
               inputPath := "/e".toList ++ '/' :: "background.ts".toList,
               outputDir := "/out".toList, options := [],
               skipped := false }]
    ∧ findEntrypoints ⟨"/e".toList, "/out".toList, 3, "chrome".toList,
        .build, none⟩ (fun _ => [(typeKey, .str moduleChars)]) noDocs
        ["background.ts".toList]
      = .ok [{ type := .background, name := backgroundChars,
               inputPath := "/e".toList ++ '/' :: "background.ts".toList,
               outputDir := "/out".toList,
               options := [(typeKey, .str moduleChars)],
               skipped := false }] :=
  ⟨(background_module_mv 2 "/e".toList "/out".toList "chrome".toList).1 rfl,
    (background_module_mv 3 "/e".toList "/out".toList "chrome".toList).2 rfl⟩

/-- C5: in serve mode with no user-defined background discovered and no
allow-set, a successful discovery returns all browser-surviving
candidates plus exactly one synthetic background entry whose input path
is the virtual sentinel marker; under the build command or with a user
background discovered, no synthetic entry is appended. -/
theorem virtual_background_injection (ctx : BuildContext)
    (o : ImportOracle) (d : DocOracle) (files : List (List Char))
    (res : List ResolvedEntrypoint)
    (h : findEntrypoints ctx o d files = .ok res)
    (hf : ctx.filterEntrypoints = none) :
    (ctx.command = .serve
        ∧ (∀ e ∈ discovered ctx o d files, e.type ≠ .background) →
      res = afterBrowser ctx o d files ++ [virtualBg ctx]
        ∧ res.filter (fun e => decide (e.type = .background))
            = [virtualBg ctx]
        ∧ (virtualBg ctx).inputPath = virtualBackgroundPath)
    ∧ (¬(ctx.command = .serve
          ∧ ∀ e ∈ discovered ctx o d files, e.type ≠ .background) →
        res = afterBrowser ctx o d files) := by
  obtain ⟨hres, -, -⟩ := findEntrypoints_ok h
  have hsv : survivingAll ctx o d files = withVirtualBg ctx o d files := by
    unfold survivingAll
    rw [hf]
  constructor
  · rintro ⟨h1, h2⟩
    have hwv : withVirtualBg ctx o d files
        = afterBrowser ctx o d files ++ [virtualBg ctx] := by
      unfold withVirtualBg
      rw [if_pos ⟨h1, h2⟩]
    refine ⟨by rw [hres, hsv, hwv], ?_, rfl⟩
    rw [hres, hsv, hwv, List.filter_append]
    have hab : (afterBrowser ctx o d files).filter
        (fun e => decide (e.type = .background)) = [] := by
      rw [List.filter_eq_nil_iff]
      intro e he
      have hd := (List.mem_filter.mp he).1
      simpa using h2 e hd
    rw [hab]
    rfl
  · intro hneg
    have hwv : withVirtualBg ctx o d files = afterBrowser ctx o d files := by
      unfold withVirtualBg
      rw [if_neg hneg]
    rw [hres, hsv, hwv]

/-- Witness for C5 in serve mode over a lone popup page. -/
theorem virtual_background_injection_witness :
    resC10 = afterBrowser ctxServe noImport noDocs ["popup.html".toList]
        ++ [virtualBg ctxServe]
    ∧ resC10.filter (fun e => decide (e.type = .background))
        = [virtualBg ctxServe]
    ∧ (virtualBg ctxServe).inputPath = virtualBackgroundPath :=
  (virtual_background_injection ctxServe noImport noDocs
      ["popup.html".toList] resC10 (by rfl) rfl).1
    ⟨rfl, by decide⟩

theorem passesBrowser_iff (b : List Char)
    (opts : List (List Char × MetaValue)) :
    passesBrowser b opts = true
      ↔ ¬((∃ ss, (lookupOpt opts includeKey).bind asStrs = some ss
              ∧ b ∉ ss)
          ∨ (∃ ss, (lookupOpt opts excludeKey).bind asStrs = some ss
              ∧ b ∈ ss)) := by
  unfold passesBrowser
  cases hi : (lookupOpt opts includeKey).bind asStrs with
  | none =>
    cases he : (lookupOpt opts excludeKey).bind asStrs with
    | none => simp
    | some ss => simp
  | some ss =>
    cases he : (lookupOpt opts excludeKey).bind asStrs with
    | none => simp
    | some ss2 => simp [not_or]

/-- C6: a discovered candidate survives into the browser-filtered set
exactly when it is not the case that an include list is present without
the target browser or an exclude list is present with the target
browser. -/
theorem browser_filtering (ctx : BuildContext) (o : ImportOracle)
    (d : DocOracle) (files : List (List Char)) (e : ResolvedEntrypoint)
    (h : e ∈ discovered ctx o d files) :
    e ∈ afterBrowser ctx o d files
      ↔ ¬((∃ ss, (lookupOpt e.options includeKey).bind asStrs = some ss
              ∧ ctx.browser ∉ ss)
          ∨ (∃ ss, (lookupOpt e.options excludeKey).bind asStrs = some ss
              ∧ ctx.browser ∈ ss)) := by
  unfold afterBrowser
  rw [List.mem_filter, ← passesBrowser_iff]
  simp [h]

def bgInclFirefox : ResolvedEntrypoint :=
  { type := .background, name := backgroundChars,
    inputPath := "/src/entrypoints/background.ts".toList,
    outputDir := "/out".toList,
    options := [(includeKey, .arr [.str "firefox".toList])],
    skipped := false }

/-- Witness for C6 at a background script whose include list names only
firefox while the target browser is chrome. -/
theorem browser_filtering_witness :
    bgInclFirefox ∈ discovered ctxBuild inclFirefox noDocs
        ["background.ts".toList]
    ∧ (bgInclFirefox ∈ afterBrowser ctxBuild inclFirefox noDocs
          ["background.ts".toList]
        ↔ ¬((∃ ss, (lookupOpt bgInclFirefox.options includeKey).bind asStrs
                = some ss ∧ ctxBuild.browser ∉ ss)
            ∨ (∃ ss, (lookupOpt bgInclFirefox.options excludeKey).bind
                  asStrs = some ss ∧ ctxBuild.browser ∈ ss))) :=
  ⟨by exact List.mem_singleton.mpr rfl,
    browser_filtering ctxBuild inclFirefox noDocs
      ["background.ts".toList] bgInclFirefox
      (by exact List.mem_singleton.mpr rfl)⟩

/-- C7: with an allow-set configured, a successful discovery returns
exactly the surviving candidates whose name is a member of the allow-set,
concatenated in the order of the allow-set rather than in discovery
order. -/
theorem filter_entrypoints_allowset (ctx : BuildContext)
    (o : ImportOracle) (d : DocOracle) (files : List (List Char))
    (allow : List (List Char)) (res : List ResolvedEntrypoint)
    (hf : ctx.filterEntrypoints = some allow)
    (h : findEntrypoints ctx o d files = .ok res) :
    res = (allow.flatMap fun n =>
        (withVirtualBg ctx o d files).filter fun e => decide (e.name = n))
    ∧ ∀ e, e ∈ res ↔ e ∈ withVirtualBg ctx o d files ∧ e.name ∈ allow := by
  obtain ⟨hres, -, -⟩ := findEntrypoints_ok h
  have hs : survivingAll ctx o d files
      = allow.flatMap fun n =>
          (withVirtualBg ctx o d files).filter
            fun e => decide (e.name = n) := by
    unfold survivingAll
    rw [hf]
  constructor
  · rw [hres, hs]
  · intro e
    rw [hres, hs, List.mem_flatMap]
    constructor
    · rintro ⟨n, hn, hmem⟩
      have hfil := List.mem_filter.mp hmem
      have hname : e.name = n := by simpa using hfil.2
      exact ⟨hfil.1, hname ▸ hn⟩
    · rintro ⟨h1, h2⟩
      exact ⟨e.name, h2, List.mem_filter.mpr ⟨h1, by simp⟩⟩

def ctxFilterRev : BuildContext :=
  { ctxBuild with filterEntrypoints := some [optionsChars, popupChars] }

def filesRev : List (List Char) :=
  ["popup/index.html".toList, "options/index.html".toList]

def resRev : List ResolvedEntrypoint :=
  [{ type := .options, name := optionsChars,
     inputPath := "/src/entrypoints/options/index.html".toList,
     outputDir := "/out".toList, options := [], skipped := false },
   { type := .popup, name := popupChars,
     inputPath := "/src/entrypoints/popup/index.html".toList,
     outputDir := "/out".toList, options := [], skipped := false }]

/-- Witness for C7: the allow-set lists options before popup while the
discovery order is popup before options, and the result follows the
allow-set order. -/
theorem filter_entrypoints_allowset_witness :
    (resRev = ([optionsChars, popupChars].flatMap fun n =>
        (withVirtualBg ctxFilterRev noImport noDocs filesRev).filter
          fun e => decide (e.name = n))
      ∧ ∀ e, e ∈ resRev
          ↔ e ∈ withVirtualBg ctxFilterRev noImport noDocs filesRev
            ∧ e.name ∈ [optionsChars, popupChars])
    ∧ resRev.map (fun e => e.name) = [optionsChars, popupChars] :=
  ⟨filter_entrypoints_allowset ctxFilterRev noImport noDocs filesRev
      [optionsChars, popupChars] resRev rfl (by rfl), by rfl⟩

/-- C8: HTML option extraction maps every head meta tag named
manifest.(field) to the camel-cased option key carrying the interpreted
content value; default_icon, open_in_tab and open_at_install camel-case
to defaultIcon, openInTab and openAtInstall while include and exclude map
to themselves; object-shaped and array-shaped content values are
evaluated as structured literals; and the document title maps to the
defaultTitle option. -/
theorem html_option_extraction :
    (∀ doc : HtmlDoc, ∀ nm content, (nm, content) ∈ doc.metas →
      ∀ k, manifestField nm = some k →
        (k, parseContent content) ∈ htmlOptions doc)
    ∧ manifestField "manifest.default_icon".toList
        = some "defaultIcon".toList
    ∧ manifestField "manifest.open_in_tab".toList
        = some "openInTab".toList
    ∧ manifestField "manifest.open_at_install".toList
        = some "openAtInstall".toList
    ∧ manifestField "manifest.include".toList = some includeKey
    ∧ manifestField "manifest.exclude".toList = some excludeKey
    ∧ parseContent iconObjChars
        = .obj [("16".toList, .str "/icon/16.png".toList)]
    ∧ parseContent "['firefox']".toList = .arr [.str "firefox".toList]
    ∧ (∀ doc : HtmlDoc, ∀ t, doc.title = some t →
        (defaultTitleKey, MetaValue.str t) ∈ htmlOptions doc) := by
  refine ⟨?_, by decide, by decide, by decide, by decide, by decide,
    by rfl, by rfl, ?_⟩
  · intro doc nm content hmem k hk
    unfold htmlOptions
    refine List.mem_append.mpr (.inl ?_)
    rw [List.mem_filterMap]
    exact ⟨(nm, content), hmem, by simp [hk]⟩
  · intro doc t ht
    unfold htmlOptions
    refine List.mem_append.mpr (.inr ?_)
    rw [ht]
    exact List.mem_singleton.mpr rfl

def docC8 : HtmlDoc :=
  ⟨[("manifest.default_icon".toList, iconObjChars)],
    some "Default Title".toList⟩

/-- Witness for C8 at the popup document of the test suite. -/
theorem html_option_extraction_witness :
    ("defaultIcon".toList,
        parseContent iconObjChars) ∈ htmlOptions docC8
    ∧ (defaultTitleKey, MetaValue.str "Default Title".toList)
        ∈ htmlOptions docC8 :=
  ⟨html_option_extraction.1 docC8 "manifest.default_icon".toList
      iconObjChars (List.mem_singleton.mpr rfl)
      "defaultIcon".toList (by decide),
    html_option_extraction.2.2.2.2.2.2.2.2 docC8
      "Default Title".toList rfl⟩

end Wxt
